import Mathlib

/-!
Verification of the hstorebench repository's specified behavior.

The first part models the OID-discovery and type-registration glue from
`hstorebench.go` / `hstorebench_test.go` (`queryHstoreOID`, `registerHstoreTypeMap`,
`registerHstore`, `genString`) as explicit state-passing functions over a connection
state.  The second part models the hstore binary and text codecs; that code lives in
the third-party pgx driver, not in this repository, so those definitions are modelled
from the spec (sections 4.1 to 4.3 and 7), as marked on each definition.
-/

namespace Hstorebench

/-- The codec attached to a registered type.  The repository only ever registers
`pgtype.HstoreCodec{}`. -/
inductive Codec
  | hstoreCodec
  deriving DecidableEq

/-- A `pgtype.Type` registration entry: type name, OID and codec. -/
structure PGType where
  name : String
  oid : Nat
  codec : Codec
  deriving DecidableEq

/-- A `pgtype.Map`: the per-connection registry of known types.  `RegisterType`
prepends; `TypeForName` searches by name. -/
structure TypeMap where
  types : List PGType
  deriving DecidableEq

/-- `pgtype.Map.RegisterType`: adds a type registration to the map. -/
def TypeMap.RegisterType (tm : TypeMap) (t : PGType) : TypeMap :=
  { types := t :: tm.types }

/-- `pgtype.Map.TypeForName`: looks up a registered type by name. -/
def TypeMap.TypeForName (tm : TypeMap) (n : String) : Option PGType :=
  tm.types.find? (fun t => t.name == n)

/-- One row of the `pg_type` catalog: `typname` and `oid`. -/
structure PgTypeRow where
  typname : String
  oid : Nat
  deriving DecidableEq

/-- The state of one database instance as visible to this program: its `pg_type`
catalog. -/
structure Database where
  pgType : List PgTypeRow
  deriving DecidableEq

/-- Error outcomes of `conn.QueryRow(...).Scan(...)`: `pgx.ErrNoRows` or an
underlying I/O error. -/
inductive PgxError
  | errNoRows
  | ioError (msg : String)
  deriving DecidableEq

/-- A pgx connection: the database instance it reaches, its default type map, an
optional pending I/O failure for the next query, and a count of catalog lookup
queries issued so far (used to state the caching claims). -/
structure Conn where
  db : Database
  typeMap : TypeMap
  ioFailure : Option String
  lookupCount : Nat
  deriving DecidableEq

/-- The query `select oid from pg_type where typname = $name` followed by
`.Scan(&oid)`.  Each call issues one catalog lookup (`lookupCount` increases);
the result is the row's oid, `errNoRows` when the catalog has no such type, or
the connection's pending I/O error. -/
def Conn.queryRowOID (conn : Conn) (name : String) : Except PgxError Nat × Conn :=
  let conn1 := { conn with lookupCount := conn.lookupCount + 1 }
  match conn.ioFailure with
  | some msg => (.error (.ioError msg), conn1)
  | none =>
    match conn.db.pgType.find? (fun r => r.typname == name) with
    | some r => (.ok r.oid, conn1)
    | none => (.error .errNoRows, conn1)

/-- Errors returned by `queryHstoreOID` / `registerHstore`:
`errHstoreDoesNotExist` (the distinguished sentinel from `hstorebench.go`) or a
passed-through query error. -/
inductive RegisterError
  | errHstoreDoesNotExist
  | other (msg : String)
  deriving DecidableEq

/-- `queryHstoreOID` from `hstorebench.go`: queries the catalog for the oid of
the type named hstore; maps `pgx.ErrNoRows` to `errHstoreDoesNotExist` and
passes any other error through. -/
def queryHstoreOID (conn : Conn) : Except RegisterError Nat × Conn :=
  match conn.queryRowOID "hstore" with
  | (.error .errNoRows, c) => (.error .errHstoreDoesNotExist, c)
  | (.error (.ioError msg), c) => (.error (.other msg), c)
  | (.ok oid, c) => (.ok oid, c)

/-- `registerHstoreTypeMap` from `hstorebench.go`: registers the hstore codec
under the given OID. -/
def registerHstoreTypeMap (hstoreOID : Nat) (typeMap : TypeMap) : TypeMap :=
  typeMap.RegisterType { name := "hstore", oid := hstoreOID, codec := .hstoreCodec }

/-- `registerHstore` from `hstorebench.go`: queries the hstore OID and, on
success, registers the hstore codec on this connection's default type map.
Returns `(error?, connection)` mirroring Go's in-place mutation plus error
return. -/
def registerHstore (conn : Conn) : Option RegisterError × Conn :=
  match queryHstoreOID conn with
  | (.error e, c) => (some e, c)
  | (.ok oid, c) => (none, { c with typeMap := registerHstoreTypeMap oid c.typeMap })

/-- The 16 characters produced by `fmt.Sprintf("%016x", v)` for `v < 2 ^ 64`:
the zero-padded lowercase hex digits of `v`, most significant first. -/
def hex16Data (v : Nat) : List Char :=
  (List.range 16).map (fun i => Nat.digitChar (v / 16 ^ (15 - i) % 16))

/-- The string form of `fmt.Sprintf("%016x", v)`. -/
def hex16 (v : Nat) : String :=
  String.mk (hex16Data v)

/-- `genString` from `hstorebench_test.go`: formats `rng.Int63()` (modelled by
`v < 2 ^ 63`) as 16 zero-padded hex digits `s` and returns the slice
`s[0 : 1 + rng.Intn(len(s) - 1)]` (the `Intn` result modelled by `r < 15`,
since `len(s) = 16`).  Hex digits are ASCII, so Go's byte slicing coincides
with character-list `take`. -/
def genString (v : Nat) (r : Nat) : String :=
  String.mk ((hex16Data v).take (1 + r))

/-- A concrete connection to a database whose catalog lacks the hstore type. -/
def connNoHstore : Conn :=
  { db := { pgType := [{ typname := "bool", oid := 16 }] }
    typeMap := { types := [] }
    ioFailure := none
    lookupCount := 0 }

/-- A concrete connection to a database whose catalog has hstore at oid 16385. -/
def connWithHstore : Conn :=
  { db := { pgType := [{ typname := "bool", oid := 16 },
                       { typname := "hstore", oid := 16385 }] }
    typeMap := { types := [] }
    ioFailure := none
    lookupCount := 0 }

/-! ## The hstore codec

The codec itself is implemented in the third-party pgx driver and its companion
package; only its callers live in this repository.  The definitions below are
therefore modelled from the spec (sections 4.1 to 4.3 and 7).  Strings are
modelled by their UTF-8 byte sequences — the spec demands byte-for-byte
preservation of arbitrary byte content, and all grammar-significant characters
are single ASCII bytes — so a byte is a `Nat` and a text is a list of bytes. -/

/-- Modelled from the spec: a byte string (each entry a byte value). -/
abbrev Bytes := List Nat

/-- Modelled from the spec (section 3): a KVMap is an ordered sequence of pairs
of a required key and an optional (nullable) value. -/
abbrev KVMap := List (Bytes × Option Bytes)

/-- Modelled from the spec (section 7): the decode error taxonomy. -/
inductive ErrorKind
  | TruncatedInput
  | TrailingBytes
  | NegativeLength
  | NullKey
  | UnterminatedQuote
  | InvalidEscape
  | MissingSeparator
  deriving DecidableEq

/-- Modelled from the spec (section 4.1): the big-endian 4-byte encoding of a
signed 32-bit length field (two's complement, `z` taken modulo `2 ^ 32`). -/
def be32 (z : Int) : Bytes :=
  let m := (z % (2 ^ 32 : Int)).toNat
  [m / 2 ^ 24 % 256, m / 2 ^ 16 % 256, m / 2 ^ 8 % 256, m % 256]

/-- Modelled from the spec (sections 4.1 and 4.3): one binary entry — key length,
key bytes, then value length `-1` for null or value length and value bytes. -/
def encodeEntry : Bytes × Option Bytes → Bytes
  | (k, v) =>
    be32 (k.length : Int) ++ k ++
      (match v with
       | none => be32 (-1)
       | some vb => be32 (vb.length : Int) ++ vb)

/-- Modelled from the spec: the concatenation of the binary entries of a KVMap. -/
def encodeEntries : KVMap → Bytes
  | [] => []
  | e :: rest => encodeEntry e ++ encodeEntries rest

/-- Modelled from the spec (sections 4.1 and 4.3): `encode_binary` — the 4-byte
pair count followed by the entries. -/
def encode_binary (m : KVMap) : Bytes :=
  be32 (m.length : Int) ++ encodeEntries m

/-- Read a signed big-endian 32-bit integer off the front of the buffer;
`none` when fewer than 4 bytes remain. -/
def readInt32 : Bytes → Option (Int × Bytes)
  | b0 :: b1 :: b2 :: b3 :: rest =>
    let u : Nat := b0 * 2 ^ 24 + b1 * 2 ^ 16 + b2 * 2 ^ 8 + b3
    some (if 2 ^ 31 ≤ u then (u : Int) - 2 ^ 32 else (u : Int), rest)
  | _ => none

/-- Read exactly `n` raw bytes off the front of the buffer; `none` when fewer
remain. -/
def readBytes (n : Nat) (bs : Bytes) : Option (Bytes × Bytes) :=
  if n ≤ bs.length then some (bs.take n, bs.drop n) else none

/-- Modelled from the spec (section 4.1): decode `n` binary entries, returning
the decoded pairs and the unconsumed tail.  A key length of `-1` is a null key,
any other negative length is malformed, value length `-1` is a null value, and
running out of bytes anywhere is `TruncatedInput`. -/
def decodeEntries : Nat → Bytes → Except ErrorKind (KVMap × Bytes)
  | 0, bs => .ok ([], bs)
  | n + 1, bs =>
    match readInt32 bs with
    | none => .error .TruncatedInput
    | some (klen, bs1) =>
      if klen = -1 then .error .NullKey
      else if klen < 0 then .error .NegativeLength
      else
        match readBytes klen.toNat bs1 with
        | none => .error .TruncatedInput
        | some (k, bs2) =>
          match readInt32 bs2 with
          | none => .error .TruncatedInput
          | some (vlen, bs3) =>
            if vlen = -1 then
              match decodeEntries n bs3 with
              | .error e => .error e
              | .ok (rest, leftover) => .ok ((k, none) :: rest, leftover)
            else if vlen < 0 then .error .NegativeLength
            else
              match readBytes vlen.toNat bs3 with
              | none => .error .TruncatedInput
              | some (v, bs4) =>
                match decodeEntries n bs4 with
                | .error e => .error e
                | .ok (rest, leftover) => .ok ((k, some v) :: rest, leftover)

/-- Modelled from the spec (section 4.1): `decode_binary` — read the signed pair
count, decode that many entries, and require that no bytes remain. -/
def decode_binary (bs : Bytes) : Except ErrorKind KVMap :=
  match readInt32 bs with
  | none => .error .TruncatedInput
  | some (n, rest) =>
    if n < 0 then .error .NegativeLength
    else
      match decodeEntries n.toNat rest with
      | .error e => .error e
      | .ok (m, leftover) => if leftover = [] then .ok m else .error .TrailingBytes

/-- A byte string fits the 32-bit binary format when its length fits in a signed
32-bit length field. -/
def wfBytes (bs : Bytes) : Prop := bs.length < 2 ^ 31

instance (bs : Bytes) : Decidable (wfBytes bs) :=
  decidable_of_iff (bs.length < 2 ^ 31) Iff.rfl

/-- Value well-formedness: absent or a well-formed byte string. -/
def wfVal : Option Bytes → Prop
  | none => True
  | some v => wfBytes v

instance : (o : Option Bytes) → Decidable (wfVal o)
  | none => .isTrue trivial
  | some v => decidable_of_iff (wfBytes v) Iff.rfl

/-- A KVMap fits the 32-bit binary format when the pair count and every key and
value length fit in a signed 32-bit field. -/
def wfKVMap (m : KVMap) : Prop :=
  m.length < 2 ^ 31 ∧ ∀ p ∈ m, wfBytes p.1 ∧ wfVal p.2

instance (m : KVMap) : Decidable (wfKVMap m) := by
  unfold wfKVMap
  exact inferInstance

/-! ### Text codec

Byte values used by the grammar: 9, 10, 13, 32 whitespace; 34 the double quote;
44 the comma; 61 and 62 the `=` and `>` of the separator; 92 the backslash;
78, 85, 76 the letters N, U, L. -/

/-- Whitespace bytes the text grammar skips: space, tab, newline, carriage
return. -/
def isWsByte (b : Nat) : Bool :=
  b = 32 || b = 9 || b = 10 || b = 13

/-- Skip leading whitespace. -/
def skipWs (bs : Bytes) : Bytes :=
  bs.dropWhile isWsByte

/-- ASCII lower-casing of one byte, for the case-insensitive `NULL` token. -/
def toLowerByte (b : Nat) : Nat :=
  if 65 ≤ b ∧ b ≤ 90 then b + 32 else b

/-- Modelled from the spec (section 4.2): backslash-escape the quote and
backslash bytes, copying every other byte through verbatim. -/
def escapeBytes : Bytes → Bytes
  | [] => []
  | b :: rest => (if b = 34 || b = 92 then [92, b] else [b]) ++ escapeBytes rest

/-- Modelled from the spec (section 4.2): a double-quoted string. -/
def quoteBytes (bs : Bytes) : Bytes :=
  34 :: (escapeBytes bs ++ [34])

/-- Modelled from the spec (section 4.3): one text pair — quoted key, `=>`,
then bare `NULL` for a null value or the quoted value. -/
def encodePairText : Bytes × Option Bytes → Bytes
  | (k, v) =>
    quoteBytes k ++ [61, 62] ++
      (match v with
       | none => [78, 85, 76, 76]
       | some vb => quoteBytes vb)

/-- Modelled from the spec (section 4.3): `encode_text` — the pairs joined with
a comma and a space; the empty map is the empty string. -/
def encode_text : KVMap → Bytes
  | [] => []
  | [p] => encodePairText p
  | p :: rest => encodePairText p ++ [44, 32] ++ encode_text rest

/-- Does the buffer start with the case-insensitive bare token `NULL`? -/
def startsWithNull (bs : Bytes) : Bool :=
  match bs with
  | a :: b :: c :: d :: _ =>
    toLowerByte a = 110 && toLowerByte b = 117 && toLowerByte c = 108 &&
      toLowerByte d = 108
  | _ => false

/-- Modelled from the spec (section 4.2): the body of a quoted string, after the
opening quote.  A closing quote ends it; a backslash must be followed by a quote
or a backslash (anything else is `InvalidEscape`); every other byte is copied
verbatim; end of input before the closing quote is `UnterminatedQuote`. -/
def parseQuotedBody : Bytes → Except ErrorKind (Bytes × Bytes)
  | [] => .error .UnterminatedQuote
  | b :: rest =>
    if b = 34 then .ok ([], rest)
    else if b = 92 then
      match rest with
      | [] => .error .UnterminatedQuote
      | c :: rest2 =>
        if c = 34 || c = 92 then
          match parseQuotedBody rest2 with
          | .error e => .error e
          | .ok (s, r) => .ok (c :: s, r)
        else .error .InvalidEscape
    else
      match parseQuotedBody rest with
      | .error e => .error e
      | .ok (s, r) => .ok (b :: s, r)

/-- Modelled from the spec (section 4.2): one `quoted-key => (quoted-value |
NULL)` pair.  The key must be quoted — a bare `NULL` in key position is the
`NullKey` error, any other unquoted token is `MissingSeparator`, and end of
input mid-pair is `TruncatedInput`.  Whitespace is allowed around the `=>`. -/
def parsePair (bs : Bytes) : Except ErrorKind ((Bytes × Option Bytes) × Bytes) :=
  match bs with
  | [] => .error .TruncatedInput
  | b :: rest =>
    if b = 34 then
      match parseQuotedBody rest with
      | .error e => .error e
      | .ok (k, rest1) =>
        match skipWs rest1 with
        | 61 :: 62 :: rest3 =>
          match skipWs rest3 with
          | [] => .error .TruncatedInput
          | c :: rest5 =>
            if c = 34 then
              match parseQuotedBody rest5 with
              | .error e => .error e
              | .ok (v, rest6) => .ok ((k, some v), rest6)
            else if startsWithNull (c :: rest5) then .ok ((k, none), (c :: rest5).drop 4)
            else .error .MissingSeparator
        | [] => .error .TruncatedInput
        | _ => .error .MissingSeparator
    else if startsWithNull bs then .error .NullKey
    else .error .MissingSeparator

/-- Modelled from the spec (section 4.2): the comma-separated pair list.  After
a pair, optional whitespace and then either end of input or a comma and another
pair.  The fuel bounds the number of pairs; each loop iteration consumes at
least one byte, so callers pass the input length. -/
def parsePairs (fuel : Nat) (bs : Bytes) : Except ErrorKind KVMap :=
  match parsePair bs with
  | .error e => .error e
  | .ok (p, rest) =>
    match skipWs rest with
    | [] => .ok [p]
    | 44 :: rest2 =>
      match fuel with
      | 0 => .error .TruncatedInput
      | fuel1 + 1 =>
        match parsePairs fuel1 (skipWs rest2) with
        | .error e => .error e
        | .ok m => .ok (p :: m)
    | _ => .error .MissingSeparator

/-- Modelled from the spec (section 4.2): `decode_text` — an all-whitespace
string is the empty map; otherwise parse the pair list. -/
def decode_text (bs : Bytes) : Except ErrorKind KVMap :=
  let bs1 := skipWs bs
  if bs1 = [] then .ok [] else parsePairs bs1.length bs1

/-- C1: on a connection whose catalog query executes without I/O error, if the
catalog has no type named hstore then `registerHstore` fails with exactly the
distinguished `errHstoreDoesNotExist` error and no other; if the catalog has an
hstore row, it succeeds and registers the hstore codec for that row's OID on the
connection's type map. -/
theorem registerHstore_resolves (conn : Conn) (hio : conn.ioFailure = none) :
    (conn.db.pgType.find? (fun r => r.typname == "hstore") = none →
      (registerHstore conn).1 = some .errHstoreDoesNotExist) ∧
    (∀ row, conn.db.pgType.find? (fun r => r.typname == "hstore") = some row →
      (registerHstore conn).1 = none ∧
      (registerHstore conn).2.typeMap.TypeForName "hstore" =
        some { name := "hstore", oid := row.oid, codec := .hstoreCodec }) := by
  constructor
  · intro hfind
    simp [registerHstore, queryHstoreOID, Conn.queryRowOID, hio, hfind]
  · intro row hfind
    simp [registerHstore, queryHstoreOID, Conn.queryRowOID, hio, hfind,
      registerHstoreTypeMap, TypeMap.RegisterType, TypeMap.TypeForName]

/-- Witness for C1: concrete instantiations at a catalog without hstore and a
catalog with hstore at oid 16385, discharging every hypothesis. -/
theorem registerHstore_resolves_witness :
    (registerHstore connNoHstore).1 = some .errHstoreDoesNotExist ∧
    ((registerHstore connWithHstore).1 = none ∧
      (registerHstore connWithHstore).2.typeMap.TypeForName "hstore" =
        some { name := "hstore", oid := 16385, codec := .hstoreCodec }) :=
  ⟨(registerHstore_resolves connNoHstore rfl).1 (by decide),
   (registerHstore_resolves connWithHstore rfl).2
     { typname := "hstore", oid := 16385 } (by decide)⟩

/-- C2 counterexample: the claim says a second resolution call for the same type
name does not repeat the catalog lookup I/O.  On the code it does: starting from
a connection with zero issued lookups whose catalog has hstore, the first
`registerHstore` call succeeds, and the second call issues a second catalog
query (the lookup counter reaches 2, not 1). -/
theorem registerHstore_second_call_requeries :
    (registerHstore connWithHstore).1 = none ∧
    ((registerHstore (registerHstore connWithHstore).2).2).lookupCount = 2 ∧
    ¬ ((registerHstore (registerHstore connWithHstore).2).2).lookupCount = 1 := by
  decide

/-- C2 amended: after one successful `registerHstore` call the identifier is
cached on the connection by being registered in its type map, where
`TypeForName` finds it without any catalog I/O, so per-query binary decoding
does not repeat the lookup; but `registerHstore` itself is not memoized — every
call to it performs exactly one catalog lookup query. -/
theorem registerHstore_caches_in_typemap (conn : Conn) (hio : conn.ioFailure = none)
    (row : PgTypeRow)
    (hfind : conn.db.pgType.find? (fun r => r.typname == "hstore") = some row) :
    (registerHstore conn).1 = none ∧
    (registerHstore conn).2.typeMap.TypeForName "hstore" =
      some { name := "hstore", oid := row.oid, codec := .hstoreCodec } ∧
    (registerHstore conn).2.lookupCount = conn.lookupCount + 1 ∧
    ((registerHstore (registerHstore conn).2).2).lookupCount = conn.lookupCount + 2 := by
  refine ⟨?_, ?_, ?_, ?_⟩ <;>
    simp [registerHstore, queryHstoreOID, Conn.queryRowOID, hio, hfind,
      registerHstoreTypeMap, TypeMap.RegisterType, TypeMap.TypeForName]

/-- Witness for the amended C2 at the concrete connection with hstore at
oid 16385. -/
theorem registerHstore_caches_in_typemap_witness :
    (registerHstore connWithHstore).1 = none ∧
    (registerHstore connWithHstore).2.typeMap.TypeForName "hstore" =
      some { name := "hstore", oid := 16385, codec := .hstoreCodec } ∧
    (registerHstore connWithHstore).2.lookupCount = 0 + 1 ∧
    ((registerHstore (registerHstore connWithHstore).2).2).lookupCount = 0 + 2 :=
  registerHstore_caches_in_typemap connWithHstore rfl
    { typname := "hstore", oid := 16385 } (by decide)

/-- The catalog lookup never touches the connection's type map. -/
theorem queryHstoreOID_preserves_typeMap (conn : Conn) :
    (queryHstoreOID conn).2.typeMap = conn.typeMap := by
  cases hio : conn.ioFailure with
  | some msg => simp [queryHstoreOID, Conn.queryRowOID, hio]
  | none =>
    cases hfind : conn.db.pgType.find? (fun r => r.typname == "hstore") with
    | some r => simp [queryHstoreOID, Conn.queryRowOID, hio, hfind]
    | none => simp [queryHstoreOID, Conn.queryRowOID, hio, hfind]

/-- C9: `registerHstore` is atomic on error.  Whenever it returns an error the
connection's type map is exactly what it was before (in particular a map with no
hstore entry still has none), and on success the only registration performed is
the hstore codec under the OID that the catalog query returned. -/
theorem registerHstore_atomic_on_error (conn : Conn) :
    (∀ e, (registerHstore conn).1 = some e →
      (registerHstore conn).2.typeMap = conn.typeMap ∧
      (registerHstore conn).2.typeMap.TypeForName "hstore" =
        conn.typeMap.TypeForName "hstore") ∧
    ((registerHstore conn).1 = none →
      ∃ oid, (queryHstoreOID conn).1 = .ok oid ∧
        (registerHstore conn).2.typeMap = registerHstoreTypeMap oid conn.typeMap) := by
  have hpres := queryHstoreOID_preserves_typeMap conn
  constructor
  · intro e he
    cases hq : queryHstoreOID conn with
    | mk res c =>
      cases res with
      | error e2 =>
        have hc : c.typeMap = conn.typeMap := by rw [hq] at hpres; exact hpres
        exact ⟨by simp [registerHstore, hq, hc], by simp [registerHstore, hq, hc]⟩
      | ok oid => simp [registerHstore, hq] at he
  · intro hn
    cases hq : queryHstoreOID conn with
    | mk res c =>
      cases res with
      | error e2 => simp [registerHstore, hq] at hn
      | ok oid =>
        have hc : c.typeMap = conn.typeMap := by rw [hq] at hpres; exact hpres
        exact ⟨oid, by simp [hq], by simp [registerHstore, hq, hc]⟩

/-- Witness for C9: at the concrete connection whose catalog lacks hstore, the
failing call leaves the (empty) type map unchanged. -/
theorem registerHstore_atomic_on_error_witness :
    (registerHstore connNoHstore).2.typeMap = connNoHstore.typeMap ∧
    (registerHstore connNoHstore).2.typeMap.TypeForName "hstore" =
      connNoHstore.typeMap.TypeForName "hstore" :=
  (registerHstore_atomic_on_error connNoHstore).1 .errHstoreDoesNotExist (by decide)

/-- C10: for every rng outcome (`v` the `Int63` draw, `r` the `Intn(15)` draw),
the formatted string has length exactly 16, so the slice bound `1 + r` is within
bounds, and `genString` returns a nonempty proper prefix of it of length between
1 and 15 inclusive. -/
theorem genString_bounds (v r : Nat) (_hv : v < 2 ^ 63) (hr : r < 15) :
    (hex16 v).length = 16 ∧
    1 + r ≤ (hex16 v).length ∧
    1 ≤ (genString v r).length ∧ (genString v r).length ≤ 15 ∧
    ∃ rest, rest ≠ [] ∧ (hex16 v).data = (genString v r).data ++ rest := by
  have hlen : (hex16Data v).length = 16 := by
    simp [hex16Data]
  have h16 : (hex16 v).length = 16 := by
    simp [hex16, String.length, hlen]
  have hg : (genString v r).length = 1 + r := by
    simp [genString, String.length, List.length_take, hlen]
    omega
  refine ⟨h16, by omega, by omega, by omega, (hex16Data v).drop (1 + r), ?_, ?_⟩
  · have : ((hex16Data v).drop (1 + r)).length = 16 - (1 + r) := by
      simp [List.length_drop, hlen]
    intro hnil
    rw [hnil] at this
    simp at this
    omega
  · simp [hex16, genString]

/-- Witness for C10 at v = 123456789, r = 7. -/
theorem genString_bounds_witness :
    (hex16 123456789).length = 16 ∧
    1 + 7 ≤ (hex16 123456789).length ∧
    1 ≤ (genString 123456789 7).length ∧ (genString 123456789 7).length ≤ 15 ∧
    ∃ rest, rest ≠ [] ∧
      (hex16 123456789).data = (genString 123456789 7).data ++ rest :=
  genString_bounds 123456789 7 (by norm_num) (by norm_num)

/-! ## Binary codec lemmas -/

/-- A 32-bit length field occupies exactly 4 bytes. -/
theorem be32_length (z : Int) : (be32 z).length = 4 := by
  simp [be32]

/-- Reading a 32-bit field off its own encoding recovers the value and leaves
the tail, for any value that fits in a signed 32-bit field. -/
theorem readInt32_be32 (z : Int) (rest : Bytes)
    (h1 : -(2 ^ 31) ≤ z) (h2 : z < 2 ^ 31) :
    readInt32 (be32 z ++ rest) = some (z, rest) := by
  have hnn : (0 : Int) ≤ z % (2 ^ 32) := Int.emod_nonneg z (by norm_num)
  have hlt : z % (2 ^ 32) < 2 ^ 32 := Int.emod_lt_of_pos z (by norm_num)
  simp only [be32, List.cons_append, List.nil_append, readInt32, Option.some.injEq,
    Prod.mk.injEq, and_true]
  norm_num
  split_ifs with h <;> omega

/-- Reading exactly the head bytes recovers them and leaves the tail. -/
theorem readBytes_append (xs rest : Bytes) :
    readBytes xs.length (xs ++ rest) = some (xs, rest) := by
  simp [readBytes, List.take_left, List.drop_left]

/-- A buffer shorter than 4 bytes has no 32-bit field to read. -/
theorem readInt32_short (bs : Bytes) (h : bs.length < 4) : readInt32 bs = none := by
  cases bs with
  | nil => rfl
  | cons a t1 =>
    cases t1 with
    | nil => rfl
    | cons b t2 =>
      cases t2 with
      | nil => rfl
      | cons c t3 =>
        cases t3 with
        | nil => rfl
        | cons d t4 => simp at h; omega

/-- A buffer shorter than `n` bytes has no `n` raw bytes to read. -/
theorem readBytes_short (n : Nat) (bs : Bytes) (h : bs.length < n) :
    readBytes n bs = none := by
  simp [readBytes]
  omega

/-- Decoding the concatenated entry encodings of a KVMap consumes exactly those
bytes, returning the map and the unconsumed tail. -/
theorem decodeEntries_encodeEntries (m : KVMap)
    (hm : ∀ p ∈ m, wfBytes p.1 ∧ wfVal p.2) (rest : Bytes) :
    decodeEntries m.length (encodeEntries m ++ rest) = .ok (m, rest) := by
  induction m generalizing rest with
  | nil => simp [encodeEntries, decodeEntries]
  | cons e t ih =>
    obtain ⟨k, v⟩ := e
    have hk : k.length < 2 ^ 31 := (hm (k, v) (by simp)).1
    have hvf : wfVal v := (hm (k, v) (by simp)).2
    have ht : ∀ q ∈ t, wfBytes q.1 ∧ wfVal q.2 := fun q hq => hm q (by simp [hq])
    have hknot1 : ¬((k.length : Int) = -1) := by omega
    have hknotneg : ¬((k.length : Int) < 0) := by omega
    cases v with
    | none =>
      have e1 : readInt32 (be32 (k.length : Int) ++
          (k ++ (be32 (-1) ++ (encodeEntries t ++ rest)))) =
          some ((k.length : Int), k ++ (be32 (-1) ++ (encodeEntries t ++ rest))) :=
        readInt32_be32 _ _ (by omega) (by omega)
      have e2 : readBytes k.length (k ++ (be32 (-1) ++ (encodeEntries t ++ rest))) =
          some (k, be32 (-1) ++ (encodeEntries t ++ rest)) := readBytes_append k _
      have e3 : readInt32 (be32 (-1) ++ (encodeEntries t ++ rest)) =
          some (-1, encodeEntries t ++ rest) :=
        readInt32_be32 (-1) _ (by norm_num) (by norm_num)
      have e4 := ih ht rest
      simp [encodeEntries, encodeEntry, List.append_assoc, decodeEntries,
        e1, e2, e3, e4, hknot1, hknotneg]
    | some vb =>
      have hv : vb.length < 2 ^ 31 := hvf
      have e1 : readInt32 (be32 (k.length : Int) ++
          (k ++ (be32 (vb.length : Int) ++ (vb ++ (encodeEntries t ++ rest))))) =
          some ((k.length : Int),
            k ++ (be32 (vb.length : Int) ++ (vb ++ (encodeEntries t ++ rest)))) :=
        readInt32_be32 _ _ (by omega) (by omega)
      have e2 : readBytes k.length
          (k ++ (be32 (vb.length : Int) ++ (vb ++ (encodeEntries t ++ rest)))) =
          some (k, be32 (vb.length : Int) ++ (vb ++ (encodeEntries t ++ rest))) :=
        readBytes_append k _
      have e3 : readInt32 (be32 (vb.length : Int) ++ (vb ++ (encodeEntries t ++ rest))) =
          some ((vb.length : Int), vb ++ (encodeEntries t ++ rest)) :=
        readInt32_be32 _ _ (by omega) (by omega)
      have e5 : readBytes vb.length (vb ++ (encodeEntries t ++ rest)) =
          some (vb, encodeEntries t ++ rest) := readBytes_append vb _
      have e4 := ih ht rest
      have hvnot1 : ¬((vb.length : Int) = -1) := by omega
      have hvnotneg : ¬((vb.length : Int) < 0) := by omega
      simp [encodeEntries, encodeEntry, List.append_assoc, decodeEntries,
        e1, e2, e3, e5, e4, hknot1, hknotneg, hvnot1, hvnotneg]

/-- Binary round trip: decoding the encoding of any well-formed KVMap succeeds
and returns the same map. -/
theorem decode_encode_binary (m : KVMap) (h : wfKVMap m) :
    decode_binary (encode_binary m) = .ok m := by
  obtain ⟨hlen, hm⟩ := h
  have e1 : readInt32 (be32 (m.length : Int) ++ encodeEntries m) =
      some ((m.length : Int), encodeEntries m) :=
    readInt32_be32 _ _ (by omega) (by omega)
  have e4 : decodeEntries m.length (encodeEntries m ++ []) = .ok (m, []) :=
    decodeEntries_encodeEntries m hm []
  rw [List.append_nil] at e4
  have hnot : ¬((m.length : Int) < 0) := by omega
  simp [decode_binary, encode_binary, e1, e4, hnot]

/-- Splitting an append equation at a left part that fits inside `p`. -/
theorem append_split (a btail p q : Bytes) (h : p ++ q = a ++ btail)
    (hle : a.length ≤ p.length) :
    p = a ++ p.drop a.length ∧ p.drop a.length ++ q = btail := by
  have htake : (p ++ q).take a.length = (a ++ btail).take a.length := by rw [h]
  rw [List.take_append_of_le_length hle, List.take_left] at htake
  have hp : p = a ++ p.drop a.length := by
    conv_lhs => rw [← List.take_append_drop a.length p]
    rw [htake]
  refine ⟨hp, ?_⟩
  apply List.append_cancel_left
  rw [← List.append_assoc, ← hp, h]

/-- Decoding a strictly truncated entry stream fails with `TruncatedInput`:
whenever the buffer `p` is a proper prefix of the encoded entries of `m` (some
nonempty `q` is missing), decoding `m.length` entries from `p` reports
truncation. -/
theorem decodeEntries_truncated (m : KVMap)
    (hm : ∀ r ∈ m, wfBytes r.1 ∧ wfVal r.2) (p q : Bytes)
    (h : p ++ q = encodeEntries m) (hq : q ≠ []) :
    decodeEntries m.length p = .error .TruncatedInput := by
  induction m generalizing p q with
  | nil =>
    rw [encodeEntries] at h
    have : q = [] := by
      have := congrArg List.length h
      simp at this
      exact this.2
    exact absurd this hq
  | cons e t ih =>
    obtain ⟨k, v⟩ := e
    have hk : k.length < 2 ^ 31 := (hm (k, v) (by simp)).1
    have hvf : wfVal (v) := (hm (k, v) (by simp)).2
    have ht : ∀ r ∈ t, wfBytes r.1 ∧ wfVal r.2 := fun r hr => hm r (by simp [hr])
    have hknot1 : ¬((k.length : Int) = -1) := by omega
    have hknotneg : ¬((k.length : Int) < 0) := by omega
    simp only [List.length_cons]
    by_cases h4 : p.length < 4
    · simp [decodeEntries, readInt32_short p h4]
    · push_neg at h4
      cases v with
      | none =>
        have hshape : p ++ q =
            be32 (k.length : Int) ++ (k ++ (be32 (-1) ++ encodeEntries t)) := by
          rw [h]; simp [encodeEntries, encodeEntry, List.append_assoc]
        obtain ⟨hp, hrest⟩ := append_split _ _ _ _ hshape (by rw [be32_length]; omega)
        set p1 := p.drop (be32 (k.length : Int)).length with hp1def
        have e1 : readInt32 p = some ((k.length : Int), p1) := by
          rw [hp]; exact readInt32_be32 _ _ (by omega) (by omega)
        by_cases hk4 : p1.length < k.length
        · simp [decodeEntries, e1, hknot1, hknotneg, readBytes_short _ _ hk4]
        · push_neg at hk4
          obtain ⟨hp2, hrest2⟩ := append_split k _ p1 q hrest hk4
          set p2 := p1.drop k.length with hp2def
          have e2 : readBytes k.length p1 = some (k, p2) := by
            rw [hp2]; exact readBytes_append k p2
          by_cases hv4 : p2.length < 4
          · simp [decodeEntries, e1, e2, hknot1, hknotneg, readInt32_short p2 hv4]
          · push_neg at hv4
            obtain ⟨hp3, hrest3⟩ :=
              append_split (be32 (-1)) _ p2 q hrest2 (by rw [be32_length]; omega)
            set p3 := p2.drop (be32 (-1 : Int)).length with hp3def
            have e3 : readInt32 p2 = some (-1, p3) := by
              rw [hp3]; exact readInt32_be32 (-1) _ (by norm_num) (by norm_num)
            have e4 := ih ht p3 q hrest3 hq
            simp [decodeEntries, e1, e2, e3, e4, hknot1, hknotneg]
      | some vb =>
        have hv : vb.length < 2 ^ 31 := hvf
        have hvnot1 : ¬((vb.length : Int) = -1) := by omega
        have hvnotneg : ¬((vb.length : Int) < 0) := by omega
        have hshape : p ++ q = be32 (k.length : Int) ++
            (k ++ (be32 (vb.length : Int) ++ (vb ++ encodeEntries t))) := by
          rw [h]; simp [encodeEntries, encodeEntry, List.append_assoc]
        obtain ⟨hp, hrest⟩ := append_split _ _ _ _ hshape (by rw [be32_length]; omega)
        set p1 := p.drop (be32 (k.length : Int)).length with hp1def
        have e1 : readInt32 p = some ((k.length : Int), p1) := by
          rw [hp]; exact readInt32_be32 _ _ (by omega) (by omega)
        by_cases hk4 : p1.length < k.length
        · simp [decodeEntries, e1, hknot1, hknotneg, readBytes_short _ _ hk4]
        · push_neg at hk4
          obtain ⟨hp2, hrest2⟩ := append_split k _ p1 q hrest hk4
          set p2 := p1.drop k.length with hp2def
          have e2 : readBytes k.length p1 = some (k, p2) := by
            rw [hp2]; exact readBytes_append k p2
          by_cases hv4 : p2.length < 4
          · simp [decodeEntries, e1, e2, hknot1, hknotneg, readInt32_short p2 hv4]
          · push_neg at hv4
            obtain ⟨hp3, hrest3⟩ := append_split (be32 (vb.length : Int)) _ p2 q hrest2
              (by rw [be32_length]; omega)
            set p3 := p2.drop (be32 (vb.length : Int)).length with hp3def
            have e3 : readInt32 p2 = some ((vb.length : Int), p3) := by
              rw [hp3]; exact readInt32_be32 _ _ (by omega) (by omega)
            by_cases hvb : p3.length < vb.length
            · simp [decodeEntries, e1, e2, e3, hknot1, hknotneg, hvnot1, hvnotneg,
                readBytes_short _ _ hvb]
            · push_neg at hvb
              obtain ⟨hp4, hrest4⟩ := append_split vb _ p3 q hrest3 hvb
              set p4 := p3.drop vb.length with hp4def
              have e5 : readBytes vb.length p3 = some (vb, p4) := by
                rw [hp4]; exact readBytes_append vb p4
              have e4 := ih ht p4 q hrest4 hq
              simp [decodeEntries, e1, e2, e3, e5, e4, hknot1, hknotneg,
                hvnot1, hvnotneg]

/-! ## Text codec lemmas -/

/-- Unquoting inverts escaping: the quoted body parser applied to an escaped
byte string followed by the closing quote recovers the bytes and the tail. -/
theorem parseQuotedBody_escape (s : Bytes) (rest : Bytes) :
    parseQuotedBody (escapeBytes s ++ (34 :: rest)) = .ok (s, rest) := by
  induction s with
  | nil =>
    rw [show escapeBytes [] ++ (34 :: rest) = 34 :: rest by simp [escapeBytes]]
    rw [parseQuotedBody.eq_def]
    simp
  | cons b tl ih =>
    cases hq : (b = 34 || b = 92 : Bool) with
    | true =>
      have hsh : escapeBytes (b :: tl) ++ (34 :: rest) =
          92 :: b :: (escapeBytes tl ++ (34 :: rest)) := by
        simp [escapeBytes, hq]
      rw [hsh, parseQuotedBody.eq_def]
      simp [hq, ih]
    | false =>
      have hb1 : ¬(b = 34) := by intro hcon; subst hcon; simp at hq
      have hb2 : ¬(b = 92) := by intro hcon; subst hcon; simp at hq
      have hsh : escapeBytes (b :: tl) ++ (34 :: rest) =
          b :: (escapeBytes tl ++ (34 :: rest)) := by
        simp [escapeBytes, hq]
      rw [hsh, parseQuotedBody.eq_def]
      simp [hb1, hb2, ih]

/-- Skipping whitespace is the identity on a buffer that starts with a
non-whitespace byte. -/
theorem skipWs_not_ws (b : Nat) (l : Bytes) (h : isWsByte b = false) :
    skipWs (b :: l) = b :: l := by
  simp [skipWs, List.dropWhile_cons, h]

/-- Parsing one pair off its own text encoding recovers the pair and leaves the
tail untouched. -/
theorem parsePair_encode (p : Bytes × Option Bytes) (rest : Bytes) :
    parsePair (encodePairText p ++ rest) = .ok (p, rest) := by
  obtain ⟨k, v⟩ := p
  cases v with
  | none =>
    have h1 : encodePairText (k, none) ++ rest =
        34 :: (escapeBytes k ++ (34 :: (61 :: 62 :: (78 :: 85 :: 76 :: 76 :: rest)))) := by
      simp [encodePairText, quoteBytes, List.append_assoc]
    rw [h1]
    simp [parsePair, parseQuotedBody_escape, skipWs_not_ws, isWsByte,
      startsWithNull, toLowerByte]
  | some vb =>
    have h1 : encodePairText (k, some vb) ++ rest =
        34 :: (escapeBytes k ++ (34 :: (61 :: 62 ::
          (34 :: (escapeBytes vb ++ (34 :: rest)))))) := by
      simp [encodePairText, quoteBytes, List.append_assoc]
    rw [h1]
    simp [parsePair, parseQuotedBody_escape, skipWs_not_ws, isWsByte]

/-- A text encoding is at least as long as the number of pairs it encodes. -/
theorem encode_text_length (m : KVMap) : m.length ≤ (encode_text m).length := by
  induction m with
  | nil => simp [encode_text]
  | cons p t ih =>
    cases t with
    | nil =>
      obtain ⟨k, v⟩ := p
      simp [encode_text, encodePairText, quoteBytes]
    | cons q t2 =>
      obtain ⟨k, v⟩ := p
      simp only [encode_text, List.length_append, List.length_cons] at ih ⊢
      simp [encodePairText, quoteBytes]
      omega

/-- The head-normalized shape of one encoded pair: it starts with the opening
quote of the key. -/
theorem encodePairText_eq (k : Bytes) (v : Option Bytes) :
    encodePairText (k, v) = 34 :: (escapeBytes k ++ (34 :: (61 :: 62 ::
      (match v with
       | none => [78, 85, 76, 76]
       | some vb => quoteBytes vb)))) := by
  cases v <;> simp [encodePairText, quoteBytes, List.append_assoc]

/-- A nonempty text encoding starts with the opening quote of its first key. -/
theorem encode_text_head (q : Bytes × Option Bytes) (t : KVMap) :
    ∃ tl, encode_text (q :: t) = 34 :: tl := by
  obtain ⟨k, v⟩ := q
  cases t with
  | nil =>
    refine ⟨escapeBytes k ++ (34 :: (61 :: 62 ::
      (match v with
       | none => [78, 85, 76, 76]
       | some vb => quoteBytes vb))), ?_⟩
    rw [show encode_text [(k, v)] = encodePairText (k, v) from rfl, encodePairText_eq]
  | cons r t2 =>
    refine ⟨escapeBytes k ++ (34 :: (61 :: 62 ::
      ((match v with
        | none => [78, 85, 76, 76]
        | some vb => quoteBytes vb) ++
        (44 :: 32 :: encode_text (r :: t2))))), ?_⟩
    rw [show encode_text ((k, v) :: r :: t2) =
      encodePairText (k, v) ++ [44, 32] ++ encode_text (r :: t2) from rfl,
      encodePairText_eq]
    simp [List.append_assoc]

/-- The pair-list parser applied to the text encoding of a nonempty KVMap
returns exactly that map, for any fuel bounding the pair count. -/
theorem parsePairs_encode (m : KVMap) (hm : m ≠ []) :
    ∀ fuel, m.length ≤ fuel + 1 → parsePairs fuel (encode_text m) = .ok m := by
  induction m with
  | nil => exact absurd rfl hm
  | cons p t ih =>
    intro fuel hfuel
    cases t with
    | nil =>
      have h3 := parsePair_encode p []
      rw [List.append_nil] at h3
      simp [encode_text, parsePairs, h3, skipWs]
    | cons q t2 =>
      have h3 := parsePair_encode p (44 :: 32 :: encode_text (q :: t2))
      cases fuel with
      | zero => simp at hfuel
      | succ fuel1 =>
        obtain ⟨tl, htl⟩ := encode_text_head q t2
        have hskip : skipWs (32 :: encode_text (q :: t2)) = encode_text (q :: t2) := by
          rw [htl]
          simp [skipWs, List.dropWhile, isWsByte]
        have hrec := ih (by simp) fuel1 (by simp at hfuel ⊢; omega)
        have henc : encode_text (p :: q :: t2) =
            encodePairText p ++ (44 :: 32 :: encode_text (q :: t2)) := by
          simp [encode_text]
        rw [henc, parsePairs.eq_def]
        simp [h3, skipWs_not_ws, isWsByte, hskip, hrec]

/-- Text round trip: decoding the text encoding of any KVMap returns the same
map. -/
theorem decode_encode_text (m : KVMap) : decode_text (encode_text m) = .ok m := by
  cases m with
  | nil => rfl
  | cons p t =>
    obtain ⟨tl, htl⟩ := encode_text_head p t
    have hskip : skipWs (encode_text (p :: t)) = encode_text (p :: t) := by
      rw [htl]
      exact skipWs_not_ws 34 tl (by decide)
    have hne : encode_text (p :: t) ≠ [] := by rw [htl]; simp
    have hlen := encode_text_length (p :: t)
    have hp := parsePairs_encode (p :: t) (by simp) (encode_text (p :: t)).length
      (by omega)
    simp only [decode_text]
    rw [hskip, if_neg hne]
    exact hp

/-- The pair-list parser never returns an empty map: every accepted parse
contains at least the first pair. -/
theorem parsePairs_ne_nil (fuel : Nat) (bs : Bytes) (m : KVMap)
    (h : parsePairs fuel bs = .ok m) : m ≠ [] := by
  rw [parsePairs.eq_def] at h
  repeat' split at h
  all_goals (intro hm; subst hm; simp at h)

/-- Decoding one or more binary entries never returns an empty map. -/
theorem decodeEntries_succ_ne_nil (n : Nat) (bs : Bytes) (m : KVMap) (l : Bytes)
    (h : decodeEntries (n + 1) bs = .ok (m, l)) : m ≠ [] := by
  simp only [decodeEntries] at h
  repeat' split at h
  all_goals (intro hm; subst hm; simp at h)

/-- The binary decoder maps a genuine byte buffer to the empty map only if the
buffer is the canonical empty encoding: a zero pair count and nothing else. -/
theorem decode_binary_ok_nil (bs : Bytes) (hb : ∀ b ∈ bs, b < 256) :
    decode_binary bs = .ok [] ↔ bs = [0, 0, 0, 0] := by
  constructor
  · intro h
    match bs, hb with
    | [], hb => simp [decode_binary, readInt32] at h
    | [b0], hb => simp [decode_binary, readInt32] at h
    | [b0, b1], hb => simp [decode_binary, readInt32] at h
    | [b0, b1, b2], hb => simp [decode_binary, readInt32] at h
    | b0 :: b1 :: b2 :: b3 :: rest, hb =>
      have hb0 : b0 < 256 := hb b0 (by simp)
      have hb1 : b1 < 256 := hb b1 (by simp)
      have hb2 : b2 < 256 := hb b2 (by simp)
      have hb3 : b3 < 256 := hb b3 (by simp)
      have hr : readInt32 (b0 :: b1 :: b2 :: b3 :: rest) =
          some ((if 2 ^ 31 ≤ b0 * 2 ^ 24 + b1 * 2 ^ 16 + b2 * 2 ^ 8 + b3
            then ((b0 * 2 ^ 24 + b1 * 2 ^ 16 + b2 * 2 ^ 8 + b3 : Nat) : Int) - 2 ^ 32
            else ((b0 * 2 ^ 24 + b1 * 2 ^ 16 + b2 * 2 ^ 8 + b3 : Nat) : Int)),
            rest) := rfl
      unfold decode_binary at h
      rw [hr] at h
      dsimp only at h
      by_cases hcase : 2 ^ 31 ≤ b0 * 2 ^ 24 + b1 * 2 ^ 16 + b2 * 2 ^ 8 + b3
      · rw [if_pos hcase] at h
        have hneg : ((b0 * 2 ^ 24 + b1 * 2 ^ 16 + b2 * 2 ^ 8 + b3 : Nat) : Int)
            - 2 ^ 32 < 0 := by omega
        rw [if_pos hneg] at h
        simp at h
      · rw [if_neg hcase] at h
        have hnn : ¬(((b0 * 2 ^ 24 + b1 * 2 ^ 16 + b2 * 2 ^ 8 + b3 : Nat) : Int) < 0) := by
          omega
        rw [if_neg hnn, Int.toNat_natCast] at h
        cases hu : b0 * 2 ^ 24 + b1 * 2 ^ 16 + b2 * 2 ^ 8 + b3 with
        | zero =>
          rw [hu] at h
          rw [show decodeEntries 0 rest = .ok ([], rest) from rfl] at h
          dsimp only at h
          by_cases hrest : rest = []
          · have hz : b0 = 0 ∧ b1 = 0 ∧ b2 = 0 ∧ b3 = 0 := by omega
            obtain ⟨z0, z1, z2, z3⟩ := hz
            subst z0; subst z1; subst z2; subst z3
            rw [hrest]
          · rw [if_neg hrest] at h
            simp at h
        | succ n =>
          rw [hu] at h
          cases hd : decodeEntries (n + 1) rest with
          | error e => rw [hd] at h; simp at h
          | ok pr =>
            obtain ⟨m1, l1⟩ := pr
            have hne := decodeEntries_succ_ne_nil n rest m1 l1 hd
            rw [hd] at h
            dsimp only at h
            by_cases hl : l1 = []
            · rw [if_pos hl] at h
              simp at h
              exact absurd h hne
            · rw [if_neg hl] at h
              simp at h
  · intro h
    subst h
    rfl

/-! ## Codec claim theorems -/

/-- C3: for every finite KVMap whose keys are non-null (keys are total in the
model) and which fits the 32-bit binary format, decoding the encoding is the
identity in both formats. -/
theorem roundtrip_both_formats (m : KVMap) (h : wfKVMap m) :
    decode_binary (encode_binary m) = .ok m ∧
    decode_text (encode_text m) = .ok m :=
  ⟨decode_encode_binary m h, decode_encode_text m⟩

/-- Witness for C3 at the two-pair map with one text value and one null value. -/
theorem roundtrip_both_formats_witness :
    decode_binary (encode_binary [([97], some [98]), ([99], none)]) =
      .ok [([97], some [98]), ([99], none)] ∧
    decode_text (encode_text [([97], some [98]), ([99], none)]) =
      .ok [([97], some [98]), ([99], none)] :=
  roundtrip_both_formats [([97], some [98]), ([99], none)] (by decide)

/-- C4: the text decoder maps the bytes of `"a"=>NULL` (and the lower-case
variant, since the bare token is case-insensitive) to the single pair with key
`a` and a null value, maps the bytes of `"a"=>"NULL"` to the pair whose value is
the literal four-byte string `NULL`, and rejects the bare unquoted token `NULL`
in key position (bytes of `NULL=>"x"`). -/
theorem text_null_disambiguation :
    decode_text [34, 97, 34, 61, 62, 78, 85, 76, 76] = .ok [([97], none)] ∧
    decode_text [34, 97, 34, 61, 62, 110, 117, 108, 108] = .ok [([97], none)] ∧
    decode_text [34, 97, 34, 61, 62, 34, 78, 85, 76, 76, 34] =
      .ok [([97], some [78, 85, 76, 76])] ∧
    decode_text [78, 85, 76, 76, 61, 62, 34, 120, 34] = .error .NullKey :=
  ⟨rfl, rfl, rfl, rfl⟩

/-- C5: the binary encoding of a single-pair map with a null value is the count,
the key length, the key bytes and then exactly the 4-byte value length `-1` with
zero value bytes (concretely for key `a`: bytes 0 0 0 1, 0 0 0 1, 97,
255 255 255 255); decoding any entry whose value length field is `-1` yields
that key with a present-but-null value; a value length field strictly less than
`-1` (here `-2`, bytes 255 255 255 254) is malformed. -/
theorem binary_null_value_encoding (k : Bytes) (hk : k.length < 2 ^ 31) :
    encode_binary [([97], none)] =
      [0, 0, 0, 1, 0, 0, 0, 1, 97, 255, 255, 255, 255] ∧
    be32 (-1) = [255, 255, 255, 255] ∧
    encode_binary [(k, none)] =
      be32 1 ++ (be32 (k.length : Int) ++ (k ++ be32 (-1))) ∧
    decode_binary (be32 1 ++ (be32 (k.length : Int) ++ (k ++ be32 (-1)))) =
      .ok [(k, none)] ∧
    decode_binary [0, 0, 0, 1, 0, 0, 0, 1, 97, 255, 255, 255, 254] =
      .error .NegativeLength := by
  have hwf : wfKVMap [(k, none)] := by
    refine ⟨by norm_num, ?_⟩
    intro p hp
    simp at hp
    subst hp
    exact ⟨hk, trivial⟩
  have hshape : encode_binary [(k, none)] =
      be32 1 ++ (be32 (k.length : Int) ++ (k ++ be32 (-1))) := by
    simp [encode_binary, encodeEntries, encodeEntry, List.append_assoc]
  refine ⟨rfl, rfl, hshape, ?_, rfl⟩
  rw [← hshape]
  exact decode_encode_binary [(k, none)] hwf

/-- Witness for C5 at the one-byte key `a`. -/
theorem binary_null_value_encoding_witness :
    encode_binary [([97], none)] =
      [0, 0, 0, 1, 0, 0, 0, 1, 97, 255, 255, 255, 255] ∧
    be32 (-1) = [255, 255, 255, 255] ∧
    encode_binary [([97], none)] =
      be32 1 ++ (be32 (([97] : Bytes).length : Int) ++ ([97] ++ be32 (-1))) ∧
    decode_binary (be32 1 ++ (be32 (([97] : Bytes).length : Int) ++
      ([97] ++ be32 (-1)))) = .ok [([97], none)] ∧
    decode_binary [0, 0, 0, 1, 0, 0, 0, 1, 97, 255, 255, 255, 254] =
      .error .NegativeLength :=
  binary_null_value_encoding [97] (by norm_num)

/-- C6: the binary decoder consumes exactly the declared entries and the whole
buffer.  Truncating any well-formed encoding (splitting it as `p ++ q` with a
nonempty missing tail `q`) makes decoding fail with `TruncatedInput`; appending
any nonempty `extra` after a well-formed encoding makes decoding fail with
`TrailingBytes`; the two error kinds are distinct. -/
theorem binary_truncation_trailing :
    (∀ (m : KVMap) (p q : Bytes), wfKVMap m → encode_binary m = p ++ q →
      q ≠ [] → decode_binary p = .error .TruncatedInput) ∧
    (∀ (m : KVMap) (extra : Bytes), wfKVMap m → extra ≠ [] →
      decode_binary (encode_binary m ++ extra) = .error .TrailingBytes) ∧
    ErrorKind.TruncatedInput ≠ ErrorKind.TrailingBytes := by
  refine ⟨?_, ?_, by decide⟩
  · intro m p q hm hpq hq
    by_cases h4 : p.length < 4
    · simp [decode_binary, readInt32_short p h4]
    · push_neg at h4
      have hshape : p ++ q = be32 (m.length : Int) ++ encodeEntries m := by
        rw [← hpq, encode_binary]
      obtain ⟨hp, hrest⟩ := append_split _ _ _ _ hshape (by rw [be32_length]; omega)
      have e1 : readInt32 p =
          some ((m.length : Int), p.drop (be32 (m.length : Int)).length) := by
        rw [hp]
        exact readInt32_be32 _ _ (by omega) (by have := hm.1; omega)
      have e4 := decodeEntries_truncated m hm.2 _ q hrest hq
      have hnot : ¬((m.length : Int) < 0) := by omega
      simp [decode_binary, e1, hnot, e4]
  · intro m extra hm hx
    have e1 : readInt32 (be32 (m.length : Int) ++ (encodeEntries m ++ extra)) =
        some ((m.length : Int), encodeEntries m ++ extra) :=
      readInt32_be32 _ _ (by omega) (by have := hm.1; omega)
    have e4 := decodeEntries_encodeEntries m hm.2 extra
    have hnot : ¬((m.length : Int) < 0) := by omega
    simp [decode_binary, encode_binary, List.append_assoc, e1, e4, hnot, hx]

/-- Witness for C6: the encoding of the one-pair null-value map truncated after
8 bytes fails with `TruncatedInput`, and the same encoding followed by one extra
byte fails with `TrailingBytes`. -/
theorem binary_truncation_trailing_witness :
    decode_binary [0, 0, 0, 1, 0, 0, 0, 1] = .error .TruncatedInput ∧
    decode_binary (encode_binary [([97], none)] ++ [7]) = .error .TrailingBytes :=
  ⟨binary_truncation_trailing.1 [([97], none)] [0, 0, 0, 1, 0, 0, 0, 1]
      [97, 255, 255, 255, 255] (by decide) (by decide) (by decide),
   binary_truncation_trailing.2.1 [([97], none)] [7] (by decide) (by decide)⟩

/-- C7: the text encoding of the empty KVMap is the empty string, and decoding
the empty string succeeds with the empty KVMap. -/
theorem text_empty_map :
    encode_text ([] : KVMap) = [] ∧ decode_text [] = .ok [] :=
  ⟨rfl, rfl⟩

/-- C8: each decoder is all-or-nothing.  Every input yields either one fully
decoded KVMap or one error, never both and never a partial map (the result type
admits nothing else), and no failure is coerced to an empty map: the only byte
buffer the binary decoder maps to the empty map is the canonical empty encoding
`[0, 0, 0, 0]`, and the only strings the text decoder maps to the empty map are
the all-whitespace ones. -/
theorem decode_all_or_nothing :
    (∀ bs : Bytes, (∃ m, decode_binary bs = .ok m) ∨
      (∃ e, decode_binary bs = .error e)) ∧
    (∀ bs : Bytes, (∃ m, decode_text bs = .ok m) ∨
      (∃ e, decode_text bs = .error e)) ∧
    (∀ bs : Bytes, (∀ b ∈ bs, b < 256) →
      (decode_binary bs = .ok [] ↔ bs = [0, 0, 0, 0])) ∧
    (∀ bs : Bytes, decode_text bs = .ok [] ↔ skipWs bs = []) := by
  refine ⟨?_, ?_, fun bs hb => decode_binary_ok_nil bs hb, ?_⟩
  · intro bs
    cases h : decode_binary bs with
    | ok m => exact Or.inl ⟨m, rfl⟩
    | error e => exact Or.inr ⟨e, rfl⟩
  · intro bs
    cases h : decode_text bs with
    | ok m => exact Or.inl ⟨m, rfl⟩
    | error e => exact Or.inr ⟨e, rfl⟩
  · intro bs
    constructor
    · intro h
      by_contra hws
      simp only [decode_text] at h
      rw [if_neg hws] at h
      exact parsePairs_ne_nil _ _ [] h rfl
    · intro hws
      simp [decode_text, hws]

/-- Witness for C8: the canonical empty binary buffer decodes to the empty map,
and an all-whitespace text decodes to the empty map. -/
theorem decode_all_or_nothing_witness :
    decode_binary [0, 0, 0, 0] = .ok [] ∧ decode_text [32, 9] = .ok [] :=
  ⟨(decode_all_or_nothing.2.2.1 [0, 0, 0, 0] (by decide)).mpr rfl,
   (decode_all_or_nothing.2.2.2 [32, 9]).mpr (by decide)⟩

end Hstorebench
